import Mathlib

/-!
Verification development for the pitz settings library.

The definitions below are shallow embeddings of the TypeScript source:
`src/store.ts` (settings store mutation pipeline), `src/storage.ts`
(storage adapters), and the relevance engine (`RelevanceEngine`).
JS records (`Record<string, T>`) are modelled as association lists with
insertion-order update semantics; promise rejection is modelled by an
explicit `threw` field on operation outcomes; zod schemas are modelled
by their parse-success predicate.
-/

namespace Pitz

/-! ### Setting values (`src/types.ts`, `SettingValue = string | number | boolean`) -/

inductive SettingValue where
  | str (s : String)
  | num (n : Int)
  | bool (b : Bool)
deriving DecidableEq

/-- The store's `key → Value` map (`values: Record<string, SettingValue>`). -/
abbrev Snapshot := List (String × SettingValue)

/-- JS record read `m[k]`: first matching entry, `none` for absence. -/
def lookupKey (m : List (String × α)) (k : String) : Option α :=
  (m.find? (fun p => p.1 == k)).map (·.2)

/-- JS record update `{...m, [k]: v}`: replaces the entry in place when the
key is present (keeping its enumeration position), otherwise appends. -/
def setKey (m : List (String × α)) (k : String) (v : α) : List (String × α) :=
  if m.any (fun p => p.1 == k) then
    m.map (fun p => if p.1 == k then (k, v) else p)
  else m ++ [(k, v)]

/-- JS record merge `{...m, ...ws}` applied pairwise in entry order. -/
def applyWrites (m : Snapshot) (ws : List (String × SettingValue)) : Snapshot :=
  ws.foldl (fun acc kv => setKey acc kv.1 kv.2) m

theorem lookupKey_setKey_self (m : List (String × α)) (k : String) (v : α) :
    lookupKey (setKey m k v) k = some v := by
  unfold setKey
  by_cases h : m.any (fun p => p.1 == k)
  · simp only [h, if_true]
    induction m with
    | nil => simp at h
    | cons p t ih =>
      by_cases hp : p.1 == k
      · simp [lookupKey, List.find?, hp]
      · simp only [List.any_cons, hp, Bool.false_or] at h
        simpa [lookupKey, List.find?, hp] using ih h
  · simp only [h, if_false]
    have hnone : m.find? (fun p => p.1 == k) = none := by
      rw [List.find?_eq_none]
      intro p hp
      by_contra hc
      exact h (List.any_of_mem hp (by simpa using hc))
    simp [lookupKey, List.find?_append, hnone, List.find?]

theorem lookupKey_map_replace (t : List (String × α)) (k k' : String) (v : α)
    (h : k' ≠ k) :
    lookupKey (t.map (fun p => if p.1 == k then (k, v) else p)) k' = lookupKey t k' := by
  induction t with
  | nil => rfl
  | cons p t ih =>
    by_cases hp : p.1 == k
    · have hpk : p.1 = k := by simpa using hp
      have hk' : ¬ (k == k') := by simpa using fun e => h e.symm
      have hpk' : ¬ (p.1 == k') := by simpa [hpk] using hk'
      simpa [lookupKey, List.find?, hp, hk', hpk'] using ih
    · by_cases hpk' : p.1 == k'
      · simp [lookupKey, List.find?, hp, hpk']
      · simpa [lookupKey, List.find?, hp, hpk'] using ih

theorem lookupKey_setKey_ne (m : List (String × α)) (k k' : String) (v : α)
    (h : k' ≠ k) : lookupKey (setKey m k v) k' = lookupKey m k' := by
  unfold setKey
  by_cases ha : m.any (fun p => p.1 == k)
  · simpa [ha] using lookupKey_map_replace m k k' v h
  · have hk' : ¬ ((k, v).1 == k') := by simpa using fun e => h e.symm
    simp [ha, lookupKey, List.find?_append, List.find?, hk']

/-! ### Settings store (`src/store.ts`) -/

/-- The runtime controller record (`SettingController` in `src/types.ts`).
Only the fields the mutation pipeline reads are kept: `key`,
`defaultValue`, and the optional zod schema, modelled by its
parse-success predicate (`schema.parse(v)` throws iff the predicate is
false on `v`). Display metadata (title, description, ...) is never read
by the pipeline and is omitted. -/
structure SettingController where
  key : String
  defaultValue : SettingValue
  schema : Option (SettingValue → Bool)

/-- The store's recorded `error` field / the value a rejected promise
carries. -/
inductive StoreError where
  | validation (key : String) (value : SettingValue)
  | persistence
deriving DecidableEq

/-- The configured storage adapter (`config.storage`), seen by the store
as an opaque async key/value map whose `set(key, value)` either resolves
(and records the pair) or rejects. `failSet` says which calls reject; a
rejected call is modelled as leaving the adapter contents unchanged. -/
structure StorageModel where
  contents : List (String × SettingValue)
  failSet : String → SettingValue → Bool

/-- The `SettingsState` fields the mutation pipeline touches:
`values`, `controllers` and the last-error field. -/
structure StoreState where
  values : Snapshot
  controllers : List (String × SettingController)
  error : Option StoreError

/-- Outcome of an async store operation: the new store state, the new
adapter state, and `threw = some e` iff the returned promise rejected
with `e`. -/
structure SetOutcome where
  state : StoreState
  storage : Option StorageModel
  threw : Option StoreError

/-- Step 1 of the pipeline for one key (`store.ts` lines 64-73): if the
key's controller carries a schema, `parse` the candidate; keys with no
controller or no schema pass. Returns `true` iff no exception is thrown. -/
def validateOne (ctrls : List (String × SettingController)) (k : String)
    (v : SettingValue) : Bool :=
  match lookupKey ctrls k with
  | some c =>
    match c.schema with
    | some p => p v
    | none => true
  | none => true

/-- `setValue(key, value)` (`store.ts` lines 57-95): validate, persist,
then apply `{...values, [key]: value}` and clear the error. -/
def setValue (st : StoreState) (stor : Option StorageModel) (k : String)
    (v : SettingValue) : SetOutcome :=
  if validateOne st.controllers k v then
    match stor with
    | some s =>
      if s.failSet k v then
        ⟨{ st with error := some .persistence }, some s, some .persistence⟩
      else
        ⟨{ st with values := setKey st.values k v, error := none },
          some { s with contents := setKey s.contents k v }, none⟩
    | none =>
      ⟨{ st with values := setKey st.values k v, error := none }, none, none⟩
  else
    ⟨{ st with error := some (.validation k v) }, stor, some (.validation k v)⟩

/-- The validation loop of `setValues` (`store.ts` lines 104-114): scan
the batch entries in order and return the first entry whose validator
throws, if any. -/
def findInvalid (ctrls : List (String × SettingController))
    (ups : List (String × SettingValue)) : Option (String × SettingValue) :=
  ups.find? (fun kv => ! validateOne ctrls kv.1 kv.2)

/-- `setValues(updates)` (`store.ts` lines 97-140): validate every entry
up front; then persist every entry (`Promise.all`); then apply
`{...values, ...updates}` and clear the error. A rejecting adapter call
leaves that key's adapter entry unchanged while the other calls still
run. -/
def setValues (st : StoreState) (stor : Option StorageModel)
    (ups : List (String × SettingValue)) : SetOutcome :=
  match findInvalid st.controllers ups with
  | some kv => ⟨{ st with error := some (.validation kv.1 kv.2) }, stor,
      some (.validation kv.1 kv.2)⟩
  | none =>
    match stor with
    | some s =>
      let newContents := ups.foldl
        (fun acc kv => if s.failSet kv.1 kv.2 then acc else setKey acc kv.1 kv.2)
        s.contents
      if ups.any (fun kv => s.failSet kv.1 kv.2) then
        ⟨{ st with error := some .persistence },
          some { s with contents := newContents }, some .persistence⟩
      else
        ⟨{ st with values := applyWrites st.values ups, error := none },
          some { s with contents := newContents }, none⟩
    | none =>
      ⟨{ st with values := applyWrites st.values ups, error := none }, none, none⟩

/-- `resetToDefault(key)` (`store.ts` lines 142-171): no controller is a
silent no-op; otherwise persist and apply the controller's
`defaultValue`. Note the source runs no validation step here. -/
def resetToDefault (st : StoreState) (stor : Option StorageModel)
    (k : String) : SetOutcome :=
  match lookupKey st.controllers k with
  | none => ⟨st, stor, none⟩
  | some c =>
    match stor with
    | some s =>
      if s.failSet k c.defaultValue then
        ⟨{ st with error := some .persistence }, some s, some .persistence⟩
      else
        ⟨{ st with values := setKey st.values k c.defaultValue, error := none },
          some { s with contents := setKey s.contents k c.defaultValue }, none⟩
    | none =>
      ⟨{ st with values := setKey st.values k c.defaultValue, error := none },
        none, none⟩

/-- The `defaultValues` map built by `resetAllToDefaults`
(`store.ts` lines 175-183): one entry per registered controller, in
controller-map enumeration order. -/
def defaultsOf (st : StoreState) : List (String × SettingValue) :=
  st.controllers.map (fun kc => (kc.1, kc.2.defaultValue))

/-- `resetAllToDefaults()` (`store.ts` lines 173-209): persist every
controller's default, then replace `values` by the defaults map entirely
(no merge) and clear the error. No validation step. -/
def resetAllToDefaults (st : StoreState) (stor : Option StorageModel) :
    SetOutcome :=
  let ds := defaultsOf st
  match stor with
  | some s =>
    let newContents := ds.foldl
      (fun acc kv => if s.failSet kv.1 kv.2 then acc else setKey acc kv.1 kv.2)
      s.contents
    if ds.any (fun kv => s.failSet kv.1 kv.2) then
      ⟨{ st with error := some .persistence },
        some { s with contents := newContents }, some .persistence⟩
    else
      ⟨{ st with values := ds, error := none },
        some { s with contents := newContents }, none⟩
  | none => ⟨{ st with values := ds, error := none }, none, none⟩

/-- `registerController` (`store.ts` lines 211-221): replaces or adds the
controller map entry; never touches `values`. -/
def registerController (st : StoreState) (c : SettingController) : StoreState :=
  { st with controllers := setKey st.controllers c.key c }

/-- `unregisterController` (`store.ts` lines 223-232): filters the key
out of the controller map; never touches `values`. -/
def unregisterController (st : StoreState) (k : String) : StoreState :=
  { st with controllers := st.controllers.filter (fun p => p.1 != k) }

/-! ### Store operation traces -/

/-- One call to a store mutation, for reasoning about reachable states. -/
inductive StoreOp where
  | setOne (k : String) (v : SettingValue)
  | setMany (ups : List (String × SettingValue))
  | reset (k : String)
  | resetAll
  | register (c : SettingController)
  | unregister (k : String)

/-- A store plus its configured adapter. -/
structure Config where
  state : StoreState
  storage : Option StorageModel

/-- Execute one operation (promise rejections recorded in `state.error`,
the thrown value itself is the caller's business). -/
def applyOp (cfg : Config) : StoreOp → Config
  | .setOne k v => let r := setValue cfg.state cfg.storage k v; ⟨r.state, r.storage⟩
  | .setMany ups => let r := setValues cfg.state cfg.storage ups; ⟨r.state, r.storage⟩
  | .reset k => let r := resetToDefault cfg.state cfg.storage k; ⟨r.state, r.storage⟩
  | .resetAll => let r := resetAllToDefaults cfg.state cfg.storage; ⟨r.state, r.storage⟩
  | .register c => ⟨registerController cfg.state c, cfg.storage⟩
  | .unregister k => ⟨unregisterController cfg.state k, cfg.storage⟩

/-- All states a trace of operations passes through, initial state included. -/
def traceStates (cfg : Config) : List StoreOp → List Config
  | [] => [cfg]
  | op :: ops => cfg :: traceStates (applyOp cfg op) ops

/-- The final state of a trace. -/
def runOps (cfg : Config) (ops : List StoreOp) : Config :=
  ops.foldl applyOp cfg

/-- A fresh store with no registered controllers, no values, no error
(the `initialState` of `createSettingsSlice`), with no adapter configured. -/
def initialConfig : Config :=
  ⟨⟨[], [], none⟩, none⟩

/-- Does the configured adapter's `set(k, v)` reject? (`none` = no adapter
configured, so nothing can reject.) -/
def persistRejects (stor : Option StorageModel) (k : String) (v : SettingValue) : Bool :=
  match stor with
  | some s => s.failSet k v
  | none => false

/-! ### Memory storage adapter (`src/storage.ts`, `MemoryStorageAdapter`) -/

/-- JS falsiness restricted to legal setting values: `false`, `0` and the
empty string are falsy; every other value is truthy. -/
def isFalsy : SettingValue → Bool
  | .str s => s.isEmpty
  | .num n => n == 0
  | .bool b => !b

/-- `MemoryStorageAdapter`: a `Map` plus the key namespace string (the
source's `prefix` option, default `"pitz:"`). -/
structure MemoryStorageAdapter where
  storage : List (String × SettingValue)
  pfx : String

/-- `getKey` (`storage.ts` line 184): namespace concatenation. -/
def MemoryStorageAdapter.fullKey (a : MemoryStorageAdapter) (k : String) : String :=
  a.pfx ++ k

/-- `get` (`storage.ts` lines 188-192): reads the map and returns
`(value as T) || null`, so a stored falsy value comes back as `null`. -/
def MemoryStorageAdapter.get (a : MemoryStorageAdapter) (k : String) :
    Option SettingValue :=
  match lookupKey a.storage (a.fullKey k) with
  | none => none
  | some v => if isFalsy v then none else some v

/-- `set` (`storage.ts` lines 194-202). The null/undefined guard cannot
fire in the embedding (`SettingValue` has no null), so `set` always
stores. -/
def MemoryStorageAdapter.set (a : MemoryStorageAdapter) (k : String)
    (v : SettingValue) : MemoryStorageAdapter :=
  { a with storage := setKey a.storage (a.fullKey k) v }

/-! ### Shared concrete fixtures -/

/-- Parse predicate of a `z.number().min(0).max(10)` schema. -/
def levelSchema : SettingValue → Bool
  | .num n => decide (0 ≤ n ∧ n ≤ 10)
  | _ => false

/-- A controller whose default value `15` fails its own `0 ≤ x ≤ 10`
schema. -/
def badDefaultController : SettingController :=
  ⟨"level", .num 15, some levelSchema⟩

/-- A controller whose default value `5` passes its schema. -/
def goodController : SettingController :=
  ⟨"level", .num 5, some levelSchema⟩

/-! ### Claim theorems: store pipeline -/

/-- C1: if any entry of a `setValues` batch fails its controller's
validator, the whole batch is rejected up front: the in-memory snapshot
is untouched, nothing at all is written to the storage adapter, and the
returned promise rejects. -/
theorem setValues_fail_fast (st : StoreState) (stor : Option StorageModel)
    (ups : List (String × SettingValue))
    (h : ∃ kv ∈ ups, validateOne st.controllers kv.1 kv.2 = false) :
    (setValues st stor ups).state.values = st.values ∧
    (setValues st stor ups).storage = stor ∧
    (setValues st stor ups).threw.isSome = true := by
  obtain ⟨kv, hmem, hval⟩ := h
  cases hfi : findInvalid st.controllers ups with
  | none =>
    exfalso
    unfold findInvalid at hfi
    rw [List.find?_eq_none] at hfi
    exact absurd hval (by simpa using hfi kv hmem)
  | some kv' =>
    simp [setValues, hfi]

/-- C1 witness: the spec's own scenario `setValues({a: valid, b: invalid})`. -/
theorem setValues_fail_fast_witness :
    (∃ kv ∈ [("a", SettingValue.num 3), ("level", SettingValue.num 15)],
      validateOne [("level", badDefaultController)] kv.1 kv.2 = false) ∧
    ((setValues ⟨[], [("level", badDefaultController)], none⟩ none
        [("a", SettingValue.num 3), ("level", SettingValue.num 15)]).state.values = [] ∧
      (setValues ⟨[], [("level", badDefaultController)], none⟩ none
        [("a", SettingValue.num 3), ("level", SettingValue.num 15)]).storage = none ∧
      (setValues ⟨[], [("level", badDefaultController)], none⟩ none
        [("a", SettingValue.num 3), ("level", SettingValue.num 15)]).threw.isSome = true) :=
  ⟨⟨("level", SettingValue.num 15), by simp, by decide⟩,
    setValues_fail_fast ⟨[], [("level", badDefaultController)], none⟩ none
      [("a", SettingValue.num 3), ("level", SettingValue.num 15)]
      ⟨("level", SettingValue.num 15), by simp, by decide⟩⟩

/-- C4: when `setValue` fails validation or the adapter's `set` rejects,
the in-memory values map is unchanged, the failure is recorded as the
store's last error, and the same error propagates to the caller. -/
theorem setValue_failure_aborts (st : StoreState) (stor : Option StorageModel)
    (k : String) (v : SettingValue)
    (h : validateOne st.controllers k v = false ∨ persistRejects stor k v = true) :
    (setValue st stor k v).state.values = st.values ∧
    (setValue st stor k v).threw.isSome = true ∧
    (setValue st stor k v).state.error = (setValue st stor k v).threw := by
  rcases h with h | h
  · simp [setValue, h]
  · by_cases hv : validateOne st.controllers k v
    · cases stor with
      | none => simp [persistRejects] at h
      | some s =>
        simp only [persistRejects] at h
        simp [setValue, hv, h]
    · simp [setValue, hv]

/-- C4 witness: a rejecting adapter write on a validated value. -/
theorem setValue_failure_aborts_witness :
    (validateOne [("level", goodController)] "level" (SettingValue.num 7) = false ∨
      persistRejects (some ⟨[], fun _ _ => true⟩) "level" (SettingValue.num 7) = true) ∧
    ((setValue ⟨[], [("level", goodController)], none⟩
        (some ⟨[], fun _ _ => true⟩) "level" (SettingValue.num 7)).state.values = [] ∧
      (setValue ⟨[], [("level", goodController)], none⟩
        (some ⟨[], fun _ _ => true⟩) "level" (SettingValue.num 7)).threw.isSome = true ∧
      (setValue ⟨[], [("level", goodController)], none⟩
        (some ⟨[], fun _ _ => true⟩) "level" (SettingValue.num 7)).state.error =
      (setValue ⟨[], [("level", goodController)], none⟩
        (some ⟨[], fun _ _ => true⟩) "level" (SettingValue.num 7)).threw) :=
  ⟨Or.inr rfl,
    setValue_failure_aborts ⟨[], [("level", goodController)], none⟩
      (some ⟨[], fun _ _ => true⟩) "level" (SettingValue.num 7) (Or.inr rfl)⟩

/-- C5 counterexample: `resetToDefault` on a controller whose default
value `15` fails its own `0 ≤ x ≤ 10` validator is NOT rejected by any
validation step: the promise resolves and the failing default is applied
to the snapshot. -/
theorem reset_validates_counterexample :
    (resetToDefault ⟨[], [("level", badDefaultController)], none⟩ none "level").threw = none ∧
    lookupKey (resetToDefault ⟨[], [("level", badDefaultController)], none⟩ none
      "level").state.values "level" = some (SettingValue.num 15) ∧
    levelSchema (SettingValue.num 15) = false := by
  decide

/-- C5 amended: `resetToDefault(key)` and `resetAllToDefaults()` run only
the persist and apply steps of the pipeline with the controller's default
value as the candidate, skipping the validation step entirely (a default
that fails its own validator is still persisted and applied); a missing
controller makes `resetToDefault` a silent no-op, and persistence
failures abort exactly as in `setValue`. -/
theorem reset_persist_apply_pipeline :
    (∀ (st : StoreState) (stor : Option StorageModel) (k : String),
      lookupKey st.controllers k = none →
        resetToDefault st stor k = ⟨st, stor, none⟩) ∧
    (∀ (st : StoreState) (stor : Option StorageModel) (k : String)
        (c : SettingController), lookupKey st.controllers k = some c →
      persistRejects stor k c.defaultValue = true →
        (resetToDefault st stor k).state.values = st.values ∧
        (resetToDefault st stor k).threw = some .persistence ∧
        (resetToDefault st stor k).state.error = some .persistence) ∧
    (∀ (st : StoreState) (stor : Option StorageModel) (k : String)
        (c : SettingController), lookupKey st.controllers k = some c →
      persistRejects stor k c.defaultValue = false →
        (resetToDefault st stor k).state.values = setKey st.values k c.defaultValue ∧
        (resetToDefault st stor k).threw = none ∧
        (resetToDefault st stor k).state.error = none) ∧
    (∀ (st : StoreState) (stor : Option StorageModel),
      ((defaultsOf st).any fun kv => persistRejects stor kv.1 kv.2) = false →
        (resetAllToDefaults st stor).state.values = defaultsOf st ∧
        (resetAllToDefaults st stor).threw = none ∧
        (resetAllToDefaults st stor).state.error = none) := by
  refine ⟨?_, ?_, ?_, ?_⟩
  · intro st stor k h
    simp [resetToDefault, h]
  · intro st stor k c h hp
    cases stor with
    | none => simp [persistRejects] at hp
    | some s =>
      simp only [persistRejects] at hp
      simp [resetToDefault, h, hp]
  · intro st stor k c h hp
    cases stor with
    | none => simp [resetToDefault, h]
    | some s =>
      simp only [persistRejects] at hp
      simp [resetToDefault, h, hp]
  · intro st stor h
    cases stor with
    | none => simp [resetAllToDefaults]
    | some s =>
      simp only [persistRejects] at h
      simp [resetAllToDefaults, h]

/-- C5 amended witness: the skipped-validation branch applied to the
invalid-default controller. -/
theorem reset_persist_apply_pipeline_witness :
    (lookupKey ([("level", badDefaultController)] :
        List (String × SettingController)) "level" = some badDefaultController ∧
      persistRejects none "level" badDefaultController.defaultValue = false) ∧
    ((resetToDefault ⟨[], [("level", badDefaultController)], none⟩ none
        "level").state.values = setKey [] "level" badDefaultController.defaultValue ∧
      (resetToDefault ⟨[], [("level", badDefaultController)], none⟩ none
        "level").threw = none ∧
      (resetToDefault ⟨[], [("level", badDefaultController)], none⟩ none
        "level").state.error = none) :=
  ⟨⟨rfl, rfl⟩,
    reset_persist_apply_pipeline.2.2.1 ⟨[], [("level", badDefaultController)], none⟩
      none "level" badDefaultController rfl rfl⟩

/-- C10: every successful mutation's apply step writes `error: null`,
so the store's recorded last error is cleared by the next successful
write (`resetToDefault` on a registered key; the unregistered-key no-op
leaves the error alone by design). -/
theorem success_clears_error :
    (∀ (st : StoreState) (stor : Option StorageModel) (k : String) (v : SettingValue),
      (setValue st stor k v).threw = none → (setValue st stor k v).state.error = none) ∧
    (∀ (st : StoreState) (stor : Option StorageModel)
        (ups : List (String × SettingValue)),
      (setValues st stor ups).threw = none → (setValues st stor ups).state.error = none) ∧
    (∀ (st : StoreState) (stor : Option StorageModel) (k : String)
        (c : SettingController), lookupKey st.controllers k = some c →
      (resetToDefault st stor k).threw = none →
        (resetToDefault st stor k).state.error = none) ∧
    (∀ (st : StoreState) (stor : Option StorageModel),
      (resetAllToDefaults st stor).threw = none →
        (resetAllToDefaults st stor).state.error = none) := by
  refine ⟨?_, ?_, ?_, ?_⟩
  · intro st stor k v h
    by_cases hv : validateOne st.controllers k v
    · cases stor with
      | none => simp [setValue, hv]
      | some s =>
        by_cases hf : s.failSet k v
        · simp [setValue, hv, hf] at h
        · simp [setValue, hv, hf]
    · simp [setValue, hv] at h
  · intro st stor ups h
    cases hfi : findInvalid st.controllers ups with
    | some kv => simp [setValues, hfi] at h
    | none =>
      cases stor with
      | none => simp [setValues, hfi]
      | some s =>
        by_cases hf : ups.any (fun kv => s.failSet kv.1 kv.2)
        · simp [setValues, hfi, hf] at h
        · simp [setValues, hfi, hf]
  · intro st stor k c hc h
    cases stor with
    | none => simp [resetToDefault, hc]
    | some s =>
      by_cases hf : s.failSet k c.defaultValue
      · simp [resetToDefault, hc, hf] at h
      · simp [resetToDefault, hc, hf]
  · intro st stor h
    cases stor with
    | none => simp [resetAllToDefaults]
    | some s =>
      by_cases hf : (defaultsOf st).any (fun kv => s.failSet kv.1 kv.2)
      · simp [resetAllToDefaults, hf] at h
      · simp [resetAllToDefaults, hf]

/-- C10 witness: a store carrying a recorded validation error is cleared
by the next successful `setValue`. -/
theorem success_clears_error_witness :
    ((setValue ⟨[], [("level", goodController)],
        some (.validation "level" (SettingValue.num 15))⟩ none "level"
        (SettingValue.num 7)).threw = none) ∧
    ((setValue ⟨[], [("level", goodController)],
        some (.validation "level" (SettingValue.num 15))⟩ none "level"
        (SettingValue.num 7)).state.error = none) :=
  ⟨by decide,
    success_clears_error.1 ⟨[], [("level", goodController)],
      some (.validation "level" (SettingValue.num 15))⟩ none "level"
      (SettingValue.num 7) (by decide)⟩

/-- C7 counterexample. Trace 1: `setValue` on a key that never has a
controller at any point of the trace still lands in the snapshot, so a
snapshot key need not have (or have had) a registered controller.
Trace 2: after registering a controller whose default `15` fails its own
validator, `resetToDefault` writes `15` into the snapshot even though it
fails the then-registered validator at the time of the write. -/
theorem snapshot_invariant_counterexample :
    ((lookupKey (runOps initialConfig
        [.setOne "k" (SettingValue.bool true)]).state.values "k").isSome = true ∧
      ((traceStates initialConfig [.setOne "k" (SettingValue.bool true)]).all
        (fun c => (lookupKey c.state.controllers "k").isNone)) = true) ∧
    (lookupKey (runOps initialConfig
        [.register badDefaultController, .reset "level"]).state.values "level" =
      some (SettingValue.num 15) ∧
      validateOne (runOps initialConfig
        [.register badDefaultController]).state.controllers "level"
        (SettingValue.num 15) = false) := by
  decide

/-- C7 amended: values enter the snapshot only through the store's write
operations; a successful `setValue`/`setValues` write satisfied the
key's then-registered controller validator whenever one was present
(keys with no controller or no validator are written unvalidated), and
`resetToDefault` writes the then-registered controller's `defaultValue`
without re-validating it. -/
theorem write_time_validation :
    (∀ (st : StoreState) (stor : Option StorageModel) (k : String) (v : SettingValue),
      (setValue st stor k v).threw = none → validateOne st.controllers k v = true) ∧
    (∀ (st : StoreState) (stor : Option StorageModel)
        (ups : List (String × SettingValue)) (kv : String × SettingValue),
      kv ∈ ups → (setValues st stor ups).threw = none →
        validateOne st.controllers kv.1 kv.2 = true) ∧
    (∀ (st : StoreState) (stor : Option StorageModel) (k : String)
        (c : SettingController), lookupKey st.controllers k = some c →
      (resetToDefault st stor k).threw = none →
        lookupKey (resetToDefault st stor k).state.values k = some c.defaultValue) := by
  refine ⟨?_, ?_, ?_⟩
  · intro st stor k v h
    by_cases hv : validateOne st.controllers k v
    · exact hv
    · simp [setValue, hv] at h
  · intro st stor ups kv hmem h
    cases hfi : findInvalid st.controllers ups with
    | some kv' => simp [setValues, hfi] at h
    | none =>
      unfold findInvalid at hfi
      rw [List.find?_eq_none] at hfi
      simpa using hfi kv hmem
  · intro st stor k c hc h
    cases stor with
    | none => simp [resetToDefault, hc, lookupKey_setKey_self]
    | some s =>
      by_cases hf : s.failSet k c.defaultValue
      · simp [resetToDefault, hc, hf] at h
      · simp [resetToDefault, hc, hf, lookupKey_setKey_self]

/-- C7 amended witness: a successful validated write. -/
theorem write_time_validation_witness :
    ((setValue ⟨[], [("level", goodController)], none⟩ none "level"
        (SettingValue.num 7)).threw = none) ∧
    (validateOne ([("level", goodController)] :
        List (String × SettingController)) "level" (SettingValue.num 7) = true) :=
  ⟨by decide,
    write_time_validation.1 ⟨[], [("level", goodController)], none⟩ none "level"
      (SettingValue.num 7) (by decide)⟩

/-- C6: the claim is the storage-adapter contract (`get` returns the
stored value for every legal setting value, `null` only for absence);
`MemoryStorageAdapter.get` instead computes `(value as T) || null`, which
collapses every stored falsy value (`false`, `0`, `""`) to `null`. This
theorem evaluates the embedded adapter at the failing inputs: each value
is demonstrably in the underlying map, yet `get` answers `none`. -/
theorem memory_adapter_falsy_lost :
    ((MemoryStorageAdapter.set ⟨[], "pitz:"⟩ "k" (SettingValue.bool false)).get "k" = none ∧
      lookupKey (MemoryStorageAdapter.set ⟨[], "pitz:"⟩ "k"
        (SettingValue.bool false)).storage "pitz:k" = some (SettingValue.bool false)) ∧
    ((MemoryStorageAdapter.set ⟨[], "pitz:"⟩ "k" (SettingValue.num 0)).get "k" = none ∧
      lookupKey (MemoryStorageAdapter.set ⟨[], "pitz:"⟩ "k"
        (SettingValue.num 0)).storage "pitz:k" = some (SettingValue.num 0)) ∧
    ((MemoryStorageAdapter.set ⟨[], "pitz:"⟩ "k" (SettingValue.str "")).get "k" = none ∧
      lookupKey (MemoryStorageAdapter.set ⟨[], "pitz:"⟩ "k"
        (SettingValue.str "")).storage "pitz:k" = some (SettingValue.str "")) := by
  decide

/-! ### Relevance engine (`RelevanceEngine`) -/

/-- A JS relevance function: its callable behaviour together with its
`Function.prototype.toString()` source text (the text is what the
dependency heuristic scans). -/
structure RelevanceFn where
  fn : Snapshot → Bool
  src : String

/-- The fields of `SettingDefinition` the relevance engine reads. -/
structure SettingDefinition where
  key : String
  isRelevant : Option RelevanceFn

/-- A structure item: a key reference with an optional structure-level
relevance predicate. -/
structure SettingStructureItem where
  key : String
  isRelevant : Option RelevanceFn

/-- A presentation group (`settings` list; titles are never read by the
engine). -/
structure SettingsGroup where
  settings : List SettingStructureItem

/-- A presentation tab (`groups` list; id/label/icon are never read by
the engine). -/
structure SettingsTab where
  groups : List SettingsGroup

structure SettingsStructure where
  tabs : List SettingsTab

/-- `findInStructure` (`relevance.ts` lines 85-96): the first structure
item with the given key, scanning tabs, then groups, then settings in
order. -/
def findInStructure (k : String) (struct : SettingsStructure) :
    Option SettingStructureItem :=
  struct.tabs.findSome? fun tab =>
    tab.groups.findSome? fun g =>
      g.settings.find? fun s => s.key == k

/-- `extractAllKeys` (`relevance.ts` lines 101-111): every structure item
key, in traversal order, duplicates kept. -/
def extractAllKeys (struct : SettingsStructure) : List String :=
  struct.tabs.flatMap fun tab => tab.groups.flatMap fun g => g.settings.map (·.key)

/-- `evaluate` (`relevance.ts` lines 22-41): return `false` if the
definition-level predicate exists and rejects, else `false` if the
structure-level predicate exists and rejects, else `true`. -/
def evaluate (k : String) (struct : SettingsStructure)
    (defs : List SettingDefinition) (vals : Snapshot) : Bool :=
  if (match (defs.find? fun d => d.key == k) with
      | some d =>
        match d.isRelevant with
        | some r => ! r.fn vals
        | none => false
      | none => false) then false
  else if (match findInStructure k struct with
      | some it =>
        match it.isRelevant with
        | some r => ! r.fn vals
        | none => false
      | none => false) then false
  else true

/-- Spec section 4.1, definition side: `the Definition's relevance
predicate`, treated as `true` when no definition or no predicate exists. -/
def defLevelPasses (k : String) (defs : List SettingDefinition)
    (vals : Snapshot) : Bool :=
  match (defs.find? fun d => d.key == k).bind (·.isRelevant) with
  | some r => r.fn vals
  | none => true

/-- Spec section 4.1, structure side: `the Structure Item's relevance
predicate`, treated as `true` when no item or no predicate exists. -/
def structLevelPasses (k : String) (struct : SettingsStructure)
    (vals : Snapshot) : Bool :=
  match (findInStructure k struct).bind (·.isRelevant) with
  | some r => r.fn vals
  | none => true

/-- Modelled from the spec's words, for comparison with the source's
`evaluate`: the logical AND of the definition-level and structure-level
relevance predicates, a missing predicate counting as `true`. -/
def evaluateSpec (k : String) (struct : SettingsStructure)
    (defs : List SettingDefinition) (vals : Snapshot) : Bool :=
  defLevelPasses k defs vals && structLevelPasses k struct vals

/-- C2: `evaluate` returns exactly the conjunction of the present
relevance predicates: `false` iff some present predicate rejects the
snapshot, `true` when no predicate exists on either side (in particular
for a key with no definition and no structure item, so a missing key is
never an error) or when all present predicates accept. -/
theorem evaluate_conjunction (k : String) (struct : SettingsStructure)
    (defs : List SettingDefinition) (vals : Snapshot) :
    evaluate k struct defs vals = evaluateSpec k struct defs vals := by
  unfold evaluate evaluateSpec defLevelPasses structLevelPasses
  rcases hd : (defs.find? fun d => d.key == k) with _ | d
  · rcases hi : findInStructure k struct with _ | it
    · simp [hd, hi]
    · rcases hr : it.isRelevant with _ | r
      · simp [hd, hi, hr]
      · cases hv : r.fn vals <;> simp [hd, hi, hr, hv]
  · rcases hdr : d.isRelevant with _ | rd
    · rcases hi : findInStructure k struct with _ | it
      · simp [hd, hdr, hi]
      · rcases hr : it.isRelevant with _ | r
        · simp [hd, hdr, hi, hr]
        · cases hv : r.fn vals <;> simp [hd, hdr, hi, hr, hv]
    · cases hv1 : rd.fn vals
      · simp [hd, hdr, hv1]
      · rcases hi : findInStructure k struct with _ | it
        · simp [hd, hdr, hv1, hi]
        · rcases hr : it.isRelevant with _ | r
          · simp [hd, hdr, hv1, hi, hr]
          · cases hv : r.fn vals <;> simp [hd, hdr, hv1, hi, hr, hv]

/-! ### Dependency heuristic and relevance tree -/

/-- Does the character list start with the pattern? -/
def listStartsWith : List Char → List Char → Bool
  | _, [] => true
  | [], _ :: _ => false
  | a :: s, b :: p => a == b && listStartsWith s p

/-- Does the pattern occur as a contiguous sublist? -/
def listHasInfix (pat : List Char) : List Char → Bool
  | [] => pat.isEmpty
  | c :: t => listStartsWith (c :: t) pat || listHasInfix pat t

/-- JS `String.prototype.includes`. -/
def strContains (s pat : String) : Bool :=
  listHasInfix pat.data s.data

/-- The double-quote character as a string. -/
def dq : String := String.singleton (Char.ofNat 34)

/-- The single-quote character as a string. -/
def sq : String := String.singleton (Char.ofNat 39)

/-- `referencesSetting` (`relevance.ts` lines 117-138): scan the
function's source text for the six key-access patterns. -/
def referencesSetting (r : Option RelevanceFn) (k : String) : Bool :=
  match r with
  | none => false
  | some rf =>
    ["[" ++ dq ++ k ++ dq ++ "]",
     "[" ++ sq ++ k ++ sq ++ "]",
     "[" ++ k ++ "]",
     "." ++ k,
     dq ++ k ++ dq,
     sq ++ k ++ sq].any fun pat => strContains rf.src pat

/-- `getDependentSettings` (`relevance.ts` lines 60-80): the structure
keys whose definition-level or structure-level relevance source text
references the changed key. -/
def getDependentSettings (changed : String) (struct : SettingsStructure)
    (defs : List SettingDefinition) : List String :=
  (extractAllKeys struct).filter fun k =>
    referencesSetting ((defs.find? fun d => d.key == k).bind (·.isRelevant)) changed ||
    referencesSetting ((findInStructure k struct).bind (·.isRelevant)) changed

/-- `getRelevanceTree` (`relevance.ts` lines 161-173): the dependents
record, one entry per structure key. -/
def getRelevanceTree (struct : SettingsStructure)
    (defs : List SettingDefinition) : List (String × List String) :=
  (extractAllKeys struct).map fun k => (k, getDependentSettings k struct defs)

/-- `Object.keys` of a record built by repeated insertion:
first-occurrence order, duplicates collapsed. -/
def dedupFirst (seen : List String) : List String → List String
  | [] => []
  | k :: t => if seen.contains k then dedupFirst seen t
              else k :: dedupFirst (k :: seen) t

/-- `tree[node] || []`. -/
def treeChildren (tree : List (String × List String)) (k : String) : List String :=
  (lookupKey tree k).getD []

/-- The mutable state of `validateRelevanceTree`'s DFS closure: the
`visited` set, the `recursionStack` set, and the `errors` accumulator. -/
structure DfsSt where
  visited : List String
  stack : List String
  errors : List String
deriving DecidableEq

/-- The error message pushed on cycle detection
(`relevance.ts` line 191). -/
def cycleMsg (n : String) : String :=
  "Circular dependency detected involving setting: " ++ n

/-- Short-circuiting loop over a node's dependents: run `step` on each
child in order, stopping at the first `true` (the `for`-loop inside
`hasCycle`, `relevance.ts` lines 202-206). -/
def runChildren (step : String → DfsSt → Bool × DfsSt) :
    List String → DfsSt → Bool × DfsSt
  | [], s => (false, s)
  | c :: cs, s =>
    let r := step c s
    if r.1 then (true, r.2) else runChildren step cs r.2

/-- The recursive `hasCycle` closure (`relevance.ts` lines 189-210),
indexed by a recursion-depth fuel. Note that on detection the `true`
returns skip `recursionStack.delete(node)`, exactly as in the source. -/
def hasCycleF (tree : List (String × List String)) :
    Nat → String → DfsSt → Bool × DfsSt
  | 0, _, s => (false, s)
  | fuel + 1, node, s =>
    if s.stack.contains node then
      (true, { s with errors := s.errors ++ [cycleMsg node] })
    else if s.visited.contains node then
      (false, s)
    else
      let s1 : DfsSt := { s with visited := node :: s.visited, stack := node :: s.stack }
      let r := runChildren (fun c t => hasCycleF tree fuel c t) (treeChildren tree node) s1
      if r.1 then (true, r.2)
      else (false, { r.2 with stack := r.2.stack.erase node })

/-- `validateRelevanceTree` (`relevance.ts` lines 178-222): DFS from
every not-yet-visited key of the tree; `valid` iff no error was pushed.
The fuel `keys.length + 1` bounds the recursion depth, which can never
exceed the number of distinct keys plus one because every deepening call
marks a fresh key visited. -/
def validateRelevanceTree (struct : SettingsStructure)
    (defs : List SettingDefinition) : Bool × List String :=
  let tree := getRelevanceTree struct defs
  let keys := dedupFirst [] (extractAllKeys struct)
  let sFin := keys.foldl
    (fun s k => if s.visited.contains k then s
                else (hasCycleF tree (keys.length + 1) k s).2)
    ⟨[], [], []⟩
  (sFin.errors.isEmpty, sFin.errors)

/-! ### Dependency-graph theory for the DFS proofs -/

/-- One dependency edge: `b` is among `tree[a]`. -/
def Edge (tree : List (String × List String)) (a b : String) : Prop :=
  b ∈ treeChildren tree a

/-- A nonempty path along tree edges. -/
inductive PathNE (tree : List (String × List String)) : String → String → Prop where
  | single {a b : String} : Edge tree a b → PathNE tree a b
  | cons {a b c : String} : Edge tree a b → PathNE tree b c → PathNE tree a c

/-- No node lies on a nonempty cycle. -/
def Acyclic (tree : List (String × List String)) : Prop :=
  ∀ a, ¬ PathNE tree a a

theorem PathNE.snoc {tree : List (String × List String)} :
    ∀ {a b c : String}, PathNE tree a b → Edge tree b c → PathNE tree a c := by
  intro a b c h
  induction h with
  | single e' => intro e; exact .cons e' (.single e)
  | cons e' _ ih => intro e; exact .cons e' (ih e)

/-- On an acyclic graph the child loop of `hasCycle` never reports a
cycle and leaves the error list and recursion stack untouched, provided
every stack entry has a nonempty path to every child it will visit. -/
theorem runChildren_acyclic {tree : List (String × List String)} (fuel : Nat)
    (ihf : ∀ (node : String) (s : DfsSt),
      (∀ x ∈ s.stack, PathNE tree x node) →
      (hasCycleF tree fuel node s).1 = false ∧
      (hasCycleF tree fuel node s).2.errors = s.errors ∧
      (hasCycleF tree fuel node s).2.stack = s.stack) :
    ∀ (cs : List String) (s : DfsSt),
      (∀ c ∈ cs, ∀ x ∈ s.stack, PathNE tree x c) →
      (runChildren (fun c t => hasCycleF tree fuel c t) cs s).1 = false ∧
      (runChildren (fun c t => hasCycleF tree fuel c t) cs s).2.errors = s.errors ∧
      (runChildren (fun c t => hasCycleF tree fuel c t) cs s).2.stack = s.stack := by
  intro cs
  induction cs with
  | nil => intro s _; simp [runChildren]
  | cons c cs ih =>
    intro s h
    obtain ⟨h1, h2, h3⟩ := ihf c s (h c (by simp))
    have hrec := ih (hasCycleF tree fuel c s).2 ?_
    · simp only [runChildren, h1, if_false, Bool.false_eq_true]
      exact ⟨hrec.1, hrec.2.1.trans h2, hrec.2.2.trans h3⟩
    · intro c' hc' x hx
      rw [h3] at hx
      exact h c' (List.mem_cons_of_mem _ hc') x hx

/-- On an acyclic graph `hasCycle` returns `false`, pushes no error and
restores the recursion stack, for every fuel, whenever every current
stack entry has a nonempty path to the visited node (the DFS path
invariant). -/
theorem hasCycleF_acyclic {tree : List (String × List String)}
    (hacy : Acyclic tree) :
    ∀ (fuel : Nat) (node : String) (s : DfsSt),
      (∀ x ∈ s.stack, PathNE tree x node) →
      (hasCycleF tree fuel node s).1 = false ∧
      (hasCycleF tree fuel node s).2.errors = s.errors ∧
      (hasCycleF tree fuel node s).2.stack = s.stack := by
  intro fuel
  induction fuel with
  | zero => intro node s _; simp [hasCycleF]
  | succ fuel ih =>
    intro node s h
    have hstack : node ∉ s.stack := fun hc => hacy node (h node hc)
    by_cases hvis : node ∈ s.visited
    · simp [hasCycleF, hstack, hvis]
    · have hpre : ∀ c ∈ treeChildren tree node,
          ∀ x ∈ ({ s with visited := node :: s.visited,
                          stack := node :: s.stack } : DfsSt).stack,
          PathNE tree x c := by
        intro c hc x hx
        have e : Edge tree node c := hc
        rcases List.mem_cons.mp hx with rfl | hx'
        · exact .single e
        · exact (h x hx').snoc e
      obtain ⟨hr1, hr2, hr3⟩ := runChildren_acyclic fuel ih (treeChildren tree node)
        { s with visited := node :: s.visited, stack := node :: s.stack } hpre
      simp [hasCycleF, hstack, hvis, hr1, hr2, hr3, List.erase_cons_head]

/-- The outer loop of `validateRelevanceTree` on an acyclic graph:
starting from an empty recursion stack it accumulates no errors. -/
theorem validateFold_acyclic {tree : List (String × List String)}
    (hacy : Acyclic tree) (fuel : Nat) :
    ∀ (keys : List String) (s : DfsSt), s.stack = [] →
      (keys.foldl (fun s k => if s.visited.contains k then s
          else (hasCycleF tree fuel k s).2) s).errors = s.errors ∧
      (keys.foldl (fun s k => if s.visited.contains k then s
          else (hasCycleF tree fuel k s).2) s).stack = [] := by
  intro keys
  induction keys with
  | nil => intro s hs; exact ⟨rfl, hs⟩
  | cons k keys ih =>
    intro s hs
    by_cases hv : k ∈ s.visited
    · have hvB : s.visited.contains k = true := by simpa using hv
      rw [List.foldl_cons, if_pos hvB]
      exact ih s hs
    · obtain ⟨_, h2, h3⟩ := hasCycleF_acyclic hacy fuel k s (by simp [hs])
      have hrest := ih (hasCycleF tree fuel k s).2 (h3.trans hs)
      have hvB : ¬ (s.visited.contains k = true) := by simpa using hv
      rw [List.foldl_cons, if_neg hvB]
      exact ⟨hrest.1.trans h2, hrest.2⟩

/-! ### Concrete relevance fixtures (two settings `A` and `B`) -/

/-- A relevance function whose source text reads `settings.B`. -/
def relRefB : RelevanceFn := ⟨fun _ => true, "(settings) => !!settings.B"⟩

/-- A relevance function whose source text reads `settings.A`. -/
def relRefA : RelevanceFn := ⟨fun _ => true, "(settings) => !!settings.A"⟩

/-- `A` depends on `B` and `B` depends on `A`: a two-node cycle. -/
def cycDefs : List SettingDefinition := [⟨"A", some relRefB⟩, ⟨"B", some relRefA⟩]

/-- Only `B` depends on `A`: an acyclic graph. -/
def acyDefs : List SettingDefinition := [⟨"A", none⟩, ⟨"B", some relRefA⟩]

/-- One tab, one group, items `A` and `B` with no structure-level
relevance. -/
def abStruct : SettingsStructure := ⟨[⟨[⟨[⟨"A", none⟩, ⟨"B", none⟩]⟩]⟩]⟩

theorem edge_ab {a b : String}
    (h : Edge [("A", ["B"]), ("B", ([] : List String))] a b) :
    a = "A" ∧ b = "B" := by
  unfold Edge treeChildren lookupKey at h
  by_cases h1 : a = "A"
  · subst h1
    simp [List.find?] at h
    exact ⟨rfl, h⟩
  · by_cases h2 : a = "B"
    · subst h2
      simp [List.find?] at h
    · have hA : (("A" : String) == a) = false := by
        simpa using fun e => h1 e.symm
      have hB : (("B" : String) == a) = false := by
        simpa using fun e => h2 e.symm
      simp [List.find?, hA, hB] at h

theorem acyclic_ab : Acyclic [("A", ["B"]), ("B", [])] := by
  have key : ∀ x y, PathNE [("A", ["B"]), ("B", [])] x y → x = "A" ∧ y = "B" := by
    intro x y h
    induction h with
    | single e => exact edge_ab e
    | cons e _ ih =>
      obtain ⟨hx, hb⟩ := edge_ab e
      obtain ⟨hb', hy⟩ := ih
      rw [hb] at hb'
      exact absurd hb' (by decide)
  intro a ha
  obtain ⟨h1, h2⟩ := key a a ha
  rw [h1] at h2
  exact absurd h2 (by decide)

/-- C3 counterexample: for the two-node cycle `A` depends on `B`, `B`
depends on `A`, `validateRelevanceTree` reports exactly one error,
naming only `A` (the traversal start, where the DFS re-entered its
recursion stack); `B` appears in no error, contradicting the claim that
each distinct cycle participant is reported with an error naming it. -/
theorem validateRelevanceTree_counterexample :
    validateRelevanceTree abStruct cycDefs = (false, [cycleMsg "A"]) ∧
    strContains (cycleMsg "A") "B" = false := by
  decide

/-- C3 amended: `validateRelevanceTree` reports zero errors whenever the
dependency graph implied by `getDependentSettings` is acyclic; when the
graph contains a cycle the DFS pushes an error only at a node where it
re-enters its recursion stack, so for the two-node cycle `A` depends on
`B`, `B` depends on `A`, exactly one error is reported and it names the
traversal's starting key `A` only. -/
theorem validateRelevanceTree_cycle_reporting :
    (∀ (struct : SettingsStructure) (defs : List SettingDefinition),
      Acyclic (getRelevanceTree struct defs) →
        (validateRelevanceTree struct defs).1 = true ∧
        (validateRelevanceTree struct defs).2 = []) ∧
    ((validateRelevanceTree abStruct cycDefs).2.length = 1 ∧
      (validateRelevanceTree abStruct cycDefs).2.all
        (fun e => strContains e "A") = true ∧
      (validateRelevanceTree abStruct cycDefs).2.all
        (fun e => ! strContains e "B") = true) := by
  constructor
  · intro struct defs hacy
    have h := validateFold_acyclic hacy
      (dedupFirst [] (extractAllKeys struct)).length.succ
      (dedupFirst [] (extractAllKeys struct)) ⟨[], [], []⟩ rfl
    unfold validateRelevanceTree
    simp only []
    rw [h.1]
    exact ⟨rfl, rfl⟩
  · decide

/-- C3 amended witness: on the acyclic graph where only `B` depends on
`A`, zero errors are reported. -/
theorem validateRelevanceTree_cycle_reporting_witness :
    Acyclic (getRelevanceTree abStruct acyDefs) ∧
    ((validateRelevanceTree abStruct acyDefs).1 = true ∧
      (validateRelevanceTree abStruct acyDefs).2 = []) := by
  have htree : getRelevanceTree abStruct acyDefs = [("A", ["B"]), ("B", [])] := by
    decide
  have hacy : Acyclic (getRelevanceTree abStruct acyDefs) := by
    rw [htree]; exact acyclic_ab
  exact ⟨hacy, validateRelevanceTree_cycle_reporting.1 abStruct acyDefs hacy⟩

/-! ### Dependency order (`RelevanceEngine.getDependencyOrder`) -/

/-- The mutable state of `getDependencyOrder`'s `visit` closure: the
`visited` set and the `result` accumulator. -/
structure VisitSt where
  visited : List String
  result : List String

/-- The loop running `visit` over a list of keys in order, threading the
state (both the inner dependents loop and the outer `for key of allKeys`
loop have this shape). -/
def visitEach (step : String → VisitSt → VisitSt) :
    List String → VisitSt → VisitSt
  | [], s => s
  | c :: cs, s => visitEach step cs (step c s)

/-- The recursive `visit` closure (`relevance.ts` lines 236-246), indexed
by a recursion-depth fuel: skip visited keys, otherwise mark visited,
visit the dependents, then push the key. -/
def visitF (tree : List (String × List String)) :
    Nat → String → VisitSt → VisitSt
  | 0, _, s => s
  | fuel + 1, key, s =>
    if s.visited.contains key then s
    else
      let s2 := visitEach (fun c t => visitF tree fuel c t)
        (treeChildren tree key) { s with visited := key :: s.visited }
      { s2 with result := s2.result ++ [key] }

/-- `getDependencyOrder` (`relevance.ts` lines 227-253): post-order DFS
over the relevance tree from every structure key, then reverse. The fuel
`allKeys.length + 1` bounds the recursion depth, which cannot exceed the
number of distinct keys plus one because every deepening call marks a
fresh key visited. -/
def getDependencyOrder (struct : SettingsStructure)
    (defs : List SettingDefinition) : List String :=
  let tree := getRelevanceTree struct defs
  let allKeys := extractAllKeys struct
  let sFin := visitEach (fun k t => visitF tree (allKeys.length + 1) k t)
    allKeys ⟨[], []⟩
  sFin.result.reverse

/-- Children listed in the relevance tree are themselves structure keys. -/
theorem treeChildren_subset (struct : SettingsStructure)
    (defs : List SettingDefinition) (n : String) :
    ∀ c ∈ treeChildren (getRelevanceTree struct defs) n,
      c ∈ extractAllKeys struct := by
  intro c hc
  unfold treeChildren lookupKey at hc
  cases hf : (getRelevanceTree struct defs).find? (fun p => p.1 == n) with
  | none => rw [hf] at hc; simp at hc
  | some p =>
    rw [hf] at hc
    simp only [Option.map_some', Option.getD_some] at hc
    have hp : p ∈ getRelevanceTree struct defs := List.mem_of_find?_eq_some hf
    unfold getRelevanceTree at hp
    rw [List.mem_map] at hp
    obtain ⟨k', _, hk'⟩ := hp
    have h2 : p.2 = getDependentSettings k' struct defs := by rw [← hk']
    rw [h2] at hc
    unfold getDependentSettings at hc
    exact List.mem_of_mem_filter hc

/-- Invariant of the dependents loop of `visit`, for any fuel, assuming
the invariant for single `visit` calls at that fuel: the loop appends to
`result` exactly the keys it newly visits — mutually distinct, fresh,
drawn from `U` — and with nonzero fuel every listed key ends up
visited. -/
theorem visitEach_inv {tree : List (String × List String)} {U : List String}
    (fuel : Nat)
    (ihf : ∀ (key : String) (s : VisitSt), key ∈ U →
      ∃ δ : List String,
        (visitF tree fuel key s).result = s.result ++ δ ∧
        (∀ x, x ∈ (visitF tree fuel key s).visited ↔ x ∈ s.visited ∨ x ∈ δ) ∧
        δ.Nodup ∧ (∀ x ∈ δ, x ∉ s.visited) ∧ (∀ x ∈ δ, x ∈ U) ∧
        (fuel ≠ 0 → key ∈ (visitF tree fuel key s).visited)) :
    ∀ (cs : List String) (s : VisitSt), (∀ c ∈ cs, c ∈ U) →
      ∃ δ : List String,
        (visitEach (fun c t => visitF tree fuel c t) cs s).result = s.result ++ δ ∧
        (∀ x, x ∈ (visitEach (fun c t => visitF tree fuel c t) cs s).visited ↔
          x ∈ s.visited ∨ x ∈ δ) ∧
        δ.Nodup ∧ (∀ x ∈ δ, x ∉ s.visited) ∧ (∀ x ∈ δ, x ∈ U) ∧
        (fuel ≠ 0 → ∀ c ∈ cs,
          c ∈ (visitEach (fun c t => visitF tree fuel c t) cs s).visited) := by
  intro cs
  induction cs with
  | nil =>
    intro s _
    exact ⟨[], by simp [visitEach], by simp [visitEach], List.nodup_nil,
      by simp, by simp, by simp [visitEach]⟩
  | cons c cs ih =>
    intro s hcs
    obtain ⟨δ1, g1, g2, g3, g4, g5, g6⟩ := ihf c s (hcs c (by simp))
    obtain ⟨δ2, f1, f2, f3, f4, f5, f6⟩ := ih (visitF tree fuel c s)
      (fun c' hc' => hcs c' (List.mem_cons_of_mem _ hc'))
    refine ⟨δ1 ++ δ2, ?_, ?_, ?_, ?_, ?_, ?_⟩
    · show (visitEach (fun c t => visitF tree fuel c t) cs
        (visitF tree fuel c s)).result = _
      rw [f1, g1, List.append_assoc]
    · intro x
      show x ∈ (visitEach (fun c t => visitF tree fuel c t) cs
        (visitF tree fuel c s)).visited ↔ _
      rw [f2 x, g2 x, List.mem_append, or_assoc]
    · rw [List.nodup_append]
      refine ⟨g3, f3, ?_⟩
      intro x hx1 hx2
      exact f4 x hx2 ((g2 x).mpr (Or.inr hx1))
    · intro x hx
      rcases List.mem_append.mp hx with hx1 | hx2
      · exact g4 x hx1
      · exact fun hs => f4 x hx2 ((g2 x).mpr (Or.inl hs))
    · intro x hx
      rcases List.mem_append.mp hx with hx1 | hx2
      · exact g5 x hx1
      · exact f5 x hx2
    · intro hf c' hc'
      show c' ∈ (visitEach (fun c t => visitF tree fuel c t) cs
        (visitF tree fuel c s)).visited
      rcases List.mem_cons.mp hc' with rfl | hc''
      · exact (f2 c').mpr (Or.inl (g6 hf))
      · exact f6 hf c' hc''

/-- Invariant of a single `visit` call, for every fuel: the keys it
appends to `result` are exactly its additions to `visited`, distinct,
fresh, and drawn from `U`; with nonzero fuel the visited key itself is
in the visited set afterwards. -/
theorem visitF_inv {tree : List (String × List String)} {U : List String}
    (hU : ∀ n, ∀ c ∈ treeChildren tree n, c ∈ U) :
    ∀ (fuel : Nat) (key : String) (s : VisitSt), key ∈ U →
      ∃ δ : List String,
        (visitF tree fuel key s).result = s.result ++ δ ∧
        (∀ x, x ∈ (visitF tree fuel key s).visited ↔ x ∈ s.visited ∨ x ∈ δ) ∧
        δ.Nodup ∧ (∀ x ∈ δ, x ∉ s.visited) ∧ (∀ x ∈ δ, x ∈ U) ∧
        (fuel ≠ 0 → key ∈ (visitF tree fuel key s).visited) := by
  intro fuel
  induction fuel with
  | zero =>
    intro key s _
    exact ⟨[], by simp [visitF], by simp [visitF], List.nodup_nil,
      by simp, by simp, by simp⟩
  | succ fuel ih =>
    intro key s hkey
    by_cases hvis : key ∈ s.visited
    · refine ⟨[], ?_, ?_, List.nodup_nil, by simp, by simp, ?_⟩
      · show (visitF tree (fuel + 1) key s).result = _
        simp [visitF, hvis]
      · intro x
        show x ∈ (visitF tree (fuel + 1) key s).visited ↔ _
        simp [visitF, hvis]
      · intro _
        show key ∈ (visitF tree (fuel + 1) key s).visited
        simp [visitF, hvis]
    · obtain ⟨δ2, f1, f2, f3, f4, f5, _⟩ := visitEach_inv fuel ih
        (treeChildren tree key) { s with visited := key :: s.visited }
        (fun c hc => hU key c hc)
      have hunf : visitF tree (fuel + 1) key s =
          { visitEach (fun c t => visitF tree fuel c t) (treeChildren tree key)
              { s with visited := key :: s.visited } with
            result := (visitEach (fun c t => visitF tree fuel c t)
              (treeChildren tree key)
              { s with visited := key :: s.visited }).result ++ [key] } := by
        simp [visitF, hvis]
      refine ⟨δ2 ++ [key], ?_, ?_, ?_, ?_, ?_, ?_⟩
      · rw [hunf]
        simp only []
        rw [f1]
        simp [List.append_assoc]
      · intro x
        rw [hunf]
        simp only []
        rw [f2 x]
        simp only [List.mem_cons, List.mem_append, List.mem_singleton]
        tauto
      · rw [List.nodup_append]
        refine ⟨f3, List.nodup_singleton key, ?_⟩
        intro x hx1 hx2
        rw [List.mem_singleton] at hx2
        subst hx2
        exact f4 x hx1 (by simp)
      · intro x hx
        rcases List.mem_append.mp hx with hx1 | hx2
        · intro hs
          exact f4 x hx1 (by simp [hs])
        · rw [List.mem_singleton] at hx2
          subst hx2
          exact hvis
      · intro x hx
        rcases List.mem_append.mp hx with hx1 | hx2
        · exact f5 x hx1
        · rw [List.mem_singleton] at hx2
          subst hx2
          exact hkey
      · intro _
        rw [hunf]
        simp only []
        exact (f2 key).mpr (Or.inl (by simp))

/-- C9: `getDependencyOrder` is a total function of the structure and
definitions — it is defined on every dependency graph, cycles included,
because the visited set lets each node be visited at most once (the fuel
argument bounds only the recursion depth, which the visited set already
bounds by the number of distinct keys) — it raises nothing, and its
output contains each structure key exactly once: it is duplicate-free
and its members are exactly the structure's keys. -/
theorem getDependencyOrder_exactly_once (struct : SettingsStructure)
    (defs : List SettingDefinition) :
    (getDependencyOrder struct defs).Nodup ∧
    (∀ k, k ∈ getDependencyOrder struct defs ↔ k ∈ extractAllKeys struct) := by
  obtain ⟨δ, f1, f2, f3, _, f5, f6⟩ :=
    visitEach_inv ((extractAllKeys struct).length + 1)
      (visitF_inv (treeChildren_subset struct defs) ((extractAllKeys struct).length + 1))
      (extractAllKeys struct) ⟨[], []⟩ (fun c hc => hc)
  have hres : (getDependencyOrder struct defs) =
      (visitEach (fun c t => visitF (getRelevanceTree struct defs)
        ((extractAllKeys struct).length + 1) c t)
        (extractAllKeys struct) ⟨[], []⟩).result.reverse := rfl
  constructor
  · rw [hres, List.nodup_reverse, f1]
    simpa using f3
  · intro k
    rw [hres, List.mem_reverse, f1]
    simp only [List.nil_append]
    constructor
    · exact fun hk => f5 k hk
    · intro hk
      have := f6 (by simp) k hk
      rcases (f2 k).mp this with h | h
      · simp at h
      · exact h

/-! ### Throttled apply-and-notify (spec-modelled)

Modelled from the spec: the `throttle` utility wrapped around the
store's apply-and-notify setter (`const throttledSet = throttle(set,
throttleMs)`) is code of this repository that is not under `src/` — only
its callers in `store.ts` and its unit tests are present. Following spec
sections 5 and 9, the leading-edge throttle is a two-state machine,
Idle / window-open-with-pending-payload: the first call in an idle
window applies and notifies immediately and opens the window; calls
arriving before the window elapses merge their payload into the pending
update with no immediate notification; when the window elapses, a single
trailing notification reflecting the merged state fires if any calls
were coalesced. -/

/-- The throttle machine's state: the applied snapshot, whether the
suppression window is open, and the merged pending writes. -/
structure ThrottleState where
  values : Snapshot
  windowOpen : Bool
  pending : List (String × SettingValue)

/-- Events the machine reacts to: an apply-and-notify call carrying one
write, or the throttle window elapsing. -/
inductive ThrottleEvent where
  | call (k : String) (v : SettingValue)
  | elapse

/-- One transition: the resulting state and the notifications fired. -/
def throttleStep (s : ThrottleState) : ThrottleEvent → ThrottleState × List Snapshot
  | .call k v =>
    if s.windowOpen then
      ({ s with pending := s.pending ++ [(k, v)] }, [])
    else
      ({ values := setKey s.values k v, windowOpen := true, pending := [] },
        [setKey s.values k v])
  | .elapse =>
    if s.pending.isEmpty then ({ s with windowOpen := false }, [])
    else
      ({ values := applyWrites s.values s.pending, windowOpen := false,
          pending := [] },
        [applyWrites s.values s.pending])

/-- Run the machine over an event sequence, collecting notifications. -/
def throttleRun : ThrottleState → List ThrottleEvent → ThrottleState × List Snapshot
  | s, [] => (s, [])
  | s, e :: es =>
    let r := throttleStep s e
    let r2 := throttleRun r.1 es
    (r2.1, r.2 ++ r2.2)

/-- The writes carried by an event sequence, in order. -/
def writesOf : List ThrottleEvent → List (String × SettingValue)
  | [] => []
  | .call k v :: es => (k, v) :: writesOf es
  | .elapse :: es => writesOf es

/-- The most recent write for a key in a write sequence. -/
def lastWrite (k : String) : List (String × SettingValue) → Option SettingValue
  | [] => none
  | kv :: t =>
    match lastWrite k t with
    | some v => some v
    | none => if kv.1 == k then some kv.2 else none

theorem applyWrites_append (m : Snapshot) (ws1 ws2 : List (String × SettingValue)) :
    applyWrites m (ws1 ++ ws2) = applyWrites (applyWrites m ws1) ws2 := by
  unfold applyWrites
  rw [List.foldl_append]

theorem lookupKey_applyWrites (m : Snapshot) (ws : List (String × SettingValue))
    (k : String) :
    lookupKey (applyWrites m ws) k =
      match lastWrite k ws with
      | some v => some v
      | none => lookupKey m k := by
  induction ws generalizing m with
  | nil => simp [applyWrites, lastWrite]
  | cons kv t ih =>
    have hstep : applyWrites m (kv :: t) = applyWrites (setKey m kv.1 kv.2) t := rfl
    rw [hstep, ih]
    cases h : lastWrite k t with
    | some v => simp [lastWrite, h]
    | none =>
      by_cases hk : kv.1 == k
      · have hke : k = kv.1 := by
          have := eq_of_beq hk
          exact this.symm
        subst hke
        simp [lastWrite, h, hk, lookupKey_setKey_self]
      · have hne : k ≠ kv.1 := by
          intro e
          rw [e] at hk
          simp at hk
        simp [lastWrite, h, hk, lookupKey_setKey_ne m kv.1 k kv.2 hne]

theorem writesOf_append (l1 l2 : List ThrottleEvent) :
    writesOf (l1 ++ l2) = writesOf l1 ++ writesOf l2 := by
  induction l1 with
  | nil => rfl
  | cons e es ih => cases e <;> simp [writesOf, ih]

theorem throttleRun_append (s : ThrottleState) (l1 l2 : List ThrottleEvent) :
    throttleRun s (l1 ++ l2) =
      ((throttleRun (throttleRun s l1).1 l2).1,
        (throttleRun s l1).2 ++ (throttleRun (throttleRun s l1).1 l2).2) := by
  induction l1 generalizing s with
  | nil => simp [throttleRun]
  | cons e es ih =>
    show throttleRun s (e :: (es ++ l2)) = _
    simp only [throttleRun]
    rw [ih (throttleStep s e).1]
    simp [throttleRun, List.append_assoc]

/-- The elapse transition always leaves an empty pending payload. -/
theorem throttleStep_elapse_pending (s : ThrottleState) :
    (throttleStep s .elapse).1.pending = [] := by
  by_cases h : s.pending.isEmpty
  · have : s.pending = [] := by simpa using h
    simp [throttleStep, h, this]
  · simp [throttleStep, h]

/-- One-step unfolding of `throttleRun`. -/
theorem throttleRun_cons (s : ThrottleState) (e : ThrottleEvent)
    (es : List ThrottleEvent) :
    throttleRun s (e :: es) =
      ((throttleRun (throttleStep s e).1 es).1,
        (throttleStep s e).2 ++ (throttleRun (throttleStep s e).1 es).2) := rfl

/-- The run invariant of the throttle machine: pending is empty whenever
the window is closed; the applied snapshot with the pending writes on
top always equals the initial snapshot with every write so far applied
in order; and whenever the pending payload is empty, either the last
notification shows exactly the current snapshot, or nothing was notified
because no write happened. -/
theorem throttleRun_inv :
    ∀ (evs : List ThrottleEvent) (s : ThrottleState),
      (s.windowOpen = false → s.pending = []) →
      (((throttleRun s evs).1.windowOpen = false →
          (throttleRun s evs).1.pending = []) ∧
        applyWrites (throttleRun s evs).1.values (throttleRun s evs).1.pending =
          applyWrites s.values (s.pending ++ writesOf evs) ∧
        ((throttleRun s evs).1.pending = [] →
          ((throttleRun s evs).2.getLast? = some (throttleRun s evs).1.values ∨
            ((throttleRun s evs).2 = [] ∧ (throttleRun s evs).1.values = s.values ∧
              (throttleRun s evs).1.pending = s.pending ∧ writesOf evs = [])))) := by
  intro evs
  induction evs with
  | nil =>
    intro s h
    exact ⟨h, by simp [throttleRun, writesOf], fun _ =>
      Or.inr ⟨rfl, rfl, rfl, rfl⟩⟩
  | cons e es ih =>
    intro s hws
    cases e with
    | call k v =>
      by_cases hw : s.windowOpen
      · -- coalescing call: payload merged, no notification
        have hstep : throttleStep s (.call k v) =
            ({ s with pending := s.pending ++ [(k, v)] }, []) := by
          simp [throttleStep, hw]
        obtain ⟨i1, i2, i3⟩ := ih { s with pending := s.pending ++ [(k, v)] }
          (by intro hcl; simp [hw] at hcl)
        simp only [throttleRun_cons, hstep, writesOf, List.nil_append]
        refine ⟨i1, ?_, ?_⟩
        · rw [i2]
          simp [List.append_assoc]
        · intro hp
          rcases i3 hp with hleft | ⟨_, _, h3, _⟩
          · exact Or.inl hleft
          · exfalso
            rw [h3] at hp
            simp at hp
      · -- leading-edge call: applied and notified immediately
        have hpe : s.pending = [] := hws (by simpa using hw)
        have hstep : throttleStep s (.call k v) =
            ({ values := setKey s.values k v, windowOpen := true, pending := [] },
              [setKey s.values k v]) := by
          simp [throttleStep, hw]
        obtain ⟨i1, i2, i3⟩ := ih
          { values := setKey s.values k v, windowOpen := true, pending := [] }
          (by intro hcl; simp at hcl)
        simp only [throttleRun_cons, hstep, writesOf]
        refine ⟨i1, ?_, ?_⟩
        · rw [i2, hpe]
          simp [applyWrites]
        · intro hp
          rcases i3 hp with hleft | ⟨h1, h2, _, _⟩
          · left
            have hne : (throttleRun
                ({ values := setKey s.values k v, windowOpen := true,
                    pending := [] } : ThrottleState) es).2 ≠ [] := by
              intro hnil
              rw [hnil] at hleft
              simp at hleft
            rw [List.getLast?_append_of_ne_nil _ hne]
            exact hleft
          · left
            rw [h1, h2]
            simp
    | elapse =>
      by_cases hp0 : s.pending.isEmpty
      · -- window elapses with nothing coalesced: no trailing notification
        have hpe : s.pending = [] := by simpa using hp0
        have hstep : throttleStep s .elapse =
            ({ s with windowOpen := false }, []) := by
          simp [throttleStep, hp0]
        obtain ⟨i1, i2, i3⟩ := ih { s with windowOpen := false } (fun _ => hpe)
        simp only [throttleRun_cons, hstep, writesOf, List.nil_append]
        refine ⟨i1, i2, ?_⟩
        intro hp
        rcases i3 hp with hleft | ⟨h1, h2, h3, h4⟩
        · exact Or.inl hleft
        · exact Or.inr ⟨h1, h2, h3, h4⟩
      · -- window elapses with a pending payload: one trailing notification
        have hstep : throttleStep s .elapse =
            ({ values := applyWrites s.values s.pending, windowOpen := false,
                pending := [] }, [applyWrites s.values s.pending]) := by
          simp [throttleStep, hp0]
        obtain ⟨i1, i2, i3⟩ := ih
          { values := applyWrites s.values s.pending, windowOpen := false,
            pending := [] } (fun _ => rfl)
        simp only [throttleRun_cons, hstep, writesOf]
        refine ⟨i1, ?_, ?_⟩
        · rw [i2]
          simp [← applyWrites_append]
        · intro hp
          rcases i3 hp with hleft | ⟨h1, h2, _, _⟩
          · left
            have hne : (throttleRun
                ({ values := applyWrites s.values s.pending, windowOpen := false,
                    pending := [] } : ThrottleState) es).2 ≠ [] := by
              intro hnil
              rw [hnil] at hleft
              simp at hleft
            rw [List.getLast?_append_of_ne_nil _ hne]
            exact hleft
          · left
            rw [h1, h2]
            simp

theorem applyWrites_nil (m : Snapshot) : applyWrites m [] = m := rfl

theorem throttleRun_nil (s : ThrottleState) : throttleRun s [] = (s, []) := rfl

/-- C8: three rapid calls on one key inside one throttle window produce
exactly one immediate notification carrying the first call's value and
exactly one trailing notification carrying the last call's value, never
three; and for every event sequence of accepted writes ending when the
window elapses, the final notified snapshot reflects the most recent
accepted write for every written key — no accepted write is dropped. -/
theorem throttle_coalesces_without_dropping :
    (∀ (s0 : ThrottleState) (k : String) (v1 v2 v3 : SettingValue),
      s0.windowOpen = false → s0.pending = [] →
        (throttleRun s0 [.call k v1, .call k v2, .call k v3, .elapse]).2 =
          [setKey s0.values k v1,
            setKey (setKey (setKey s0.values k v1) k v2) k v3] ∧
        lookupKey (setKey s0.values k v1) k = some v1 ∧
        lookupKey (setKey (setKey (setKey s0.values k v1) k v2) k v3) k =
          some v3) ∧
    (∀ (s0 : ThrottleState) (evs : List ThrottleEvent),
      s0.windowOpen = false → s0.pending = [] →
      ∀ (k : String) (v : SettingValue), lastWrite k (writesOf evs) = some v →
        (throttleRun s0 (evs ++ [.elapse])).2.getLast? =
          some (throttleRun s0 (evs ++ [.elapse])).1.values ∧
        lookupKey (throttleRun s0 (evs ++ [.elapse])).1.values k = some v) := by
  constructor
  · intro s0 k v1 v2 v3 hw hp
    obtain ⟨vals, w, p⟩ := s0
    simp only at hw hp
    subst hw
    subst hp
    refine ⟨?_, lookupKey_setKey_self _ _ _, lookupKey_setKey_self _ _ _⟩
    simp [throttleRun, throttleStep, applyWrites]
  · intro s0 evs hw hp k v hlast
    obtain ⟨c1, c2, c3⟩ := throttleRun_inv (evs ++ [.elapse]) s0 (fun _ => hp)
    have hpfin : (throttleRun s0 (evs ++ [.elapse])).1.pending = [] := by
      rw [throttleRun_append]
      simp only [throttleRun_cons, throttleRun_nil]
      exact throttleStep_elapse_pending _
    have hval : (throttleRun s0 (evs ++ [.elapse])).1.values =
        applyWrites s0.values (writesOf evs) := by
      have h2 := c2
      rw [hpfin, applyWrites_nil, hp, List.nil_append, writesOf_append] at h2
      simpa [writesOf, applyWrites_append, applyWrites_nil] using h2
    refine ⟨?_, ?_⟩
    · rcases c3 hpfin with hleft | ⟨_, _, _, hwr⟩
      · exact hleft
      · exfalso
        rw [writesOf_append] at hwr
        simp only [writesOf, List.append_nil] at hwr
        rw [hwr] at hlast
        simp [lastWrite] at hlast
    · rw [hval, lookupKey_applyWrites, hlast]

/-- C8 witness: three rapid writes of `audio.volume` from an idle empty
store, coalesced to two notifications with the first and last values. -/
theorem throttle_coalesces_without_dropping_witness :
    ((⟨[], false, []⟩ : ThrottleState).windowOpen = false ∧
      (⟨[], false, []⟩ : ThrottleState).pending = []) ∧
    ((throttleRun ⟨[], false, []⟩
        [.call "audio.volume" (SettingValue.num 10),
          .call "audio.volume" (SettingValue.num 20),
          .call "audio.volume" (SettingValue.num 30), .elapse]).2 =
      [setKey [] "audio.volume" (SettingValue.num 10),
        setKey (setKey (setKey [] "audio.volume" (SettingValue.num 10))
          "audio.volume" (SettingValue.num 20)) "audio.volume"
          (SettingValue.num 30)] ∧
      lookupKey (setKey [] "audio.volume" (SettingValue.num 10)) "audio.volume" =
        some (SettingValue.num 10) ∧
      lookupKey (setKey (setKey (setKey [] "audio.volume" (SettingValue.num 10))
        "audio.volume" (SettingValue.num 20)) "audio.volume"
        (SettingValue.num 30)) "audio.volume" = some (SettingValue.num 30)) :=
  ⟨⟨rfl, rfl⟩,
    throttle_coalesces_without_dropping.1 ⟨[], false, []⟩ "audio.volume"
      (SettingValue.num 10) (SettingValue.num 20) (SettingValue.num 30) rfl rfl⟩

end Pitz
